import Mathlib

/-!
Verification of the blob-arena game loop (`src/script.js`).

The per-frame simulation is shallowly embedded over `ℚ` (JS numbers are
modelled as exact rationals).  Randomness (`Math.random()`) is modelled as an
explicit oracle: each frame receives a record of the sample values the frame
may consume, with range hypotheses `0 ≤ r < 1` added where a theorem needs
them.  DOM access, CSS flashes and `requestAnimationFrame` scheduling are
output-only side effects and are not part of the state.

One intentional deviation of the carrier: `ℚ` division by zero is `0`, while
JS produces `NaN`/`Infinity` (relevant only to degenerate keyboard layouts
with a single row or a single column, which the program never builds).
`Math.hypot dx dy > t` is expressed root-free: for `t ≥ 0` it is equivalent
to `t^2 < dx^2 + dy^2`, and for `t < 0` it always holds since `hypot ≥ 0`.
-/

namespace BlobGame

/-- A 2-D vector `{x, y}`, used for positions, directions and centers. -/
@[ext] structure Vec2 where
  x : ℚ
  y : ℚ
deriving DecidableEq, Repr

/-- The frozen `settings` object (lines 8–28 of `script.js`). -/
structure Settings where
  blobSize : ℚ
  randomShake : ℚ
  pushPower : ℚ
  slowDown : ℚ
  pullPower : ℚ
  hMax : ℚ
  hRegen : ℚ
  hCooldown : ℚ
  driftPower : ℚ
  driftChangeMin : ℚ
  driftChangeMax : ℚ
  flashTime : ℚ
deriving DecidableEq, Repr

/-- The concrete settings values of the program. -/
def settings : Settings :=
  { blobSize := 40
    randomShake := 90
    pushPower := 420
    slowDown := 97/100
    pullPower := 8
    hMax := 3
    hRegen := 3/5
    hCooldown := 1
    driftPower := 160
    driftChangeMin := 3/5
    driftChangeMax := 7/5
    flashTime := 200 }

/-- The mutable `game` state object (lines 31–54 of `script.js`).
`keys` is the held-key set; a JS `Set` iterates in insertion order, so it is
modelled as a duplicate-free-by-use list in that order. -/
@[ext] structure Game where
  playing : Bool
  x : ℚ
  y : ℚ
  sx : ℚ
  sy : ℚ
  keys : List String
  hLeft : ℚ
  hCooling : ℚ
  hOverheat : Bool
  time : ℚ
  lastFrame : ℚ
  driftX : ℚ
  driftY : ℚ
  driftTimer : ℚ
deriving DecidableEq, Repr

/-- The initial `game` literal: position is the window midpoint, full `hLeft`
battery, no overheat, zero timers.  `w`, `h` are the window dimensions and
`t0` the `performance.now()` value at module load. -/
def initGame (s : Settings) (w h t0 : ℚ) : Game :=
  { playing := true
    x := w / 2
    y := h / 2
    sx := 0
    sy := 0
    keys := []
    hLeft := s.hMax
    hCooling := 0
    hOverheat := false
    time := 0
    lastFrame := t0
    driftX := 0
    driftY := 0
    driftTimer := 0 }

/-- The per-frame random samples: `d1 d2 d3` feed `pickNewDrift`, `w1 w2`
feed the wiggle.  Each models one `Math.random()` call. -/
structure Rand where
  d1 : ℚ
  d2 : ℚ
  d3 : ℚ
  w1 : ℚ
  w2 : ℚ
deriving DecidableEq, Repr

/-- `mapSet m k v`: functional update, the meaning of JS `Map.set` (later
`set` calls overwrite earlier ones for the same key). -/
def mapSet (m : String → Option Vec2) (k : String) (v : Vec2) :
    String → Option Vec2 :=
  fun q => if q = k then some v else m q

/-- `Math.max(...rows.map(r => r.length))` for a nonempty row list. -/
def widestRow (rows : List String) : ℕ :=
  rows.foldl (fun m row => max m row.length) 0

/-- The vector stored for the character at row `r`, column `c`:
`x = (c/(widest-1))*2 - 1`, `y = (r/(numRows-1))*2 - 1` (line 66–67). -/
def keyVec (widest numRows r c : ℕ) : Vec2 :=
  ⟨((c : ℚ) / ((widest : ℚ) - 1)) * 2 - 1,
   ((r : ℚ) / ((numRows : ℚ) - 1)) * 2 - 1⟩

/-- Entries produced by the inner `forEach` over one row, columns starting
at `c`. -/
def rowEntriesAux (widest numRows r : ℕ) : ℕ → List Char → List (String × Vec2)
  | _, [] => []
  | c, ch :: rest =>
      (String.mk [ch], keyVec widest numRows r c) ::
        rowEntriesAux widest numRows r (c + 1) rest

/-- All `(key, vector)` pairs contributed by one row string. -/
def rowEntries (widest numRows r : ℕ) (row : String) : List (String × Vec2) :=
  rowEntriesAux widest numRows r 0 row.toList

/-- Entries produced by the outer `forEach` over the rows, row index starting
at `r`. -/
def keyEntriesAux (widest numRows : ℕ) : ℕ → List String → List (String × Vec2)
  | _, [] => []
  | r, row :: rest =>
      rowEntries widest numRows r row ++ keyEntriesAux widest numRows (r + 1) rest

/-- All `(key, vector)` pairs set by `makeKeyMap`, in `set` order. -/
def keyEntries (rows : List String) : List (String × Vec2) :=
  keyEntriesAux (widestRow rows) rows.length 0 rows

/-- `makeKeyMap` (lines 61–72): builds the key → direction map by running
`Map.set` over all entries in order. -/
def makeKeyMap (rows : List String) : String → Option Vec2 :=
  (keyEntries rows).foldl (fun m e => mapSet m e.1 e.2) (fun _ => none)

/-- The keyboard rows of the program (line 57). -/
def rows : List String := ["qwertyuiop", "asdfghjkl", "zxcvbnm"]

/-- The global `directions` map (line 58). -/
def directions : String → Option Vec2 := makeKeyMap rows

/-- `getKeyDirection` (lines 75–81): first held key that is not `"h"` and is
in the map decides the direction; otherwise the zero vector. -/
def getKeyDirection (dirs : String → Option Vec2) : List String → Vec2
  | [] => ⟨0, 0⟩
  | k :: rest =>
      if k = "h" then getKeyDirection dirs rest
      else
        match dirs k with
        | some d => d
        | none => getKeyDirection dirs rest

/-- `canUseH` (line 104): `!game.hOverheat && game.hLeft > 0`. -/
def canUseH (g : Game) : Bool :=
  !g.hOverheat && decide (0 < g.hLeft)

/-- `usingH` (line 105): `game.keys.has("h") && canUseH`. -/
def usingH (g : Game) : Bool :=
  g.keys.contains "h" && canUseH g

/-- `pickNewDrift` (lines 87–92) with the three `Math.random()` results made
explicit: `driftX/Y = (r*2-1)*driftPower`,
`driftTimer = driftChangeMin + r*(driftChangeMax - driftChangeMin)`. -/
def pickNewDrift (s : Settings) (rnd : Rand) (g : Game) : Game :=
  { g with
    driftX := (rnd.d1 * 2 - 1) * s.driftPower
    driftY := (rnd.d2 * 2 - 1) * s.driftPower
    driftTimer := s.driftChangeMin + rnd.d3 * (s.driftChangeMax - s.driftChangeMin) }

/-- Drift block of the loop (lines 107–111): decrement the timer, resample if
it fell to `≤ 0`, then add `drift * dt` to the velocity. -/
def driftPhase (s : Settings) (rnd : Rand) (dt : ℚ) (g : Game) : Game :=
  let g1 := { g with driftTimer := g.driftTimer - dt }
  let g2 := if g1.driftTimer ≤ 0 then pickNewDrift s rnd g1 else g1
  { g2 with sx := g2.sx + g2.driftX * dt, sy := g2.sy + g2.driftY * dt }

/-- Wiggle block (lines 113–117): random noise `(r-0.5)*randomShake*dt` on
each velocity component, skipped while `usingH`. -/
def wigglePhase (s : Settings) (rnd : Rand) (uH : Bool) (dt : ℚ) (g : Game) :
    Game :=
  if !uH then
    { g with
      sx := g.sx + (rnd.w1 - 1/2) * s.randomShake * dt
      sy := g.sy + (rnd.w2 - 1/2) * s.randomShake * dt }
  else g

/-- Keyboard push block (lines 119–122). -/
def pushPhase (s : Settings) (dirs : String → Option Vec2) (dt : ℚ) (g : Game) :
    Game :=
  let d := getKeyDirection dirs g.keys
  { g with
    sx := g.sx + d.x * s.pushPower * dt
    sy := g.sy + d.y * s.pushPower * dt }

/-- H pull / battery / overheat block (lines 124–144).  While using H: pull
toward the center, deplete `hLeft` (floored at 0) and trip the overheat +
cooldown when it hits exactly 0.  Otherwise: run the cooldown while
overheated (clearing the flag at exactly 0), else regenerate (capped). -/
def hPhase (s : Settings) (c : Vec2) (uH : Bool) (dt : ℚ) (g : Game) : Game :=
  if uH then
    let g1 := { g with
      sx := g.sx + (c.x - g.x) * s.pullPower * dt
      sy := g.sy + (c.y - g.y) * s.pullPower * dt }
    let g2 := { g1 with hLeft := max 0 (g1.hLeft - dt) }
    if g2.hLeft = 0 then
      { g2 with hOverheat := true, hCooling := s.hCooldown }
    else g2
  else
    if g.hOverheat then
      let g1 := { g with hCooling := max 0 (g.hCooling - dt) }
      if g1.hCooling = 0 then { g1 with hOverheat := false } else g1
    else
      { g with hLeft := min s.hMax (g.hLeft + s.hRegen * dt) }

/-- Move + friction block (lines 146–150). -/
def movePhase (s : Settings) (dt : ℚ) (g : Game) : Game :=
  let g1 := { g with x := g.x + g.sx * dt, y := g.y + g.sy * dt }
  { g1 with sx := g1.sx * s.slowDown, sy := g1.sy * s.slowDown }

/-- `Math.hypot dx dy > t` written root-free over `ℚ` (see module header). -/
def hypotGT (dx dy t : ℚ) : Bool :=
  decide (t < 0) || decide (t ^ 2 < dx ^ 2 + dy ^ 2)

/-- Boundary / game-over block (lines 152–159) together with the timer
advance of line 169, which runs exactly when the boundary check passes. -/
def boundaryPhase (s : Settings) (c : Vec2) (radius dt : ℚ) (g : Game) : Game :=
  if hypotGT (g.x - c.x) (g.y - c.y) (radius - s.blobSize / 2) then
    { g with playing := false }
  else
    { g with time := g.time + dt }

/-- One frame of `loop` (lines 98–173).  `now` is the frame timestamp; the
arena center `c` and `radius` are the values the external geometry provider
(`center()` / `radius()`, lines 83–84) returns this frame.  Note the source
stores `lastFrame = now` *before* the `!game.playing` early return. -/
def loop (s : Settings) (c : Vec2) (radius : ℚ) (dirs : String → Option Vec2)
    (rnd : Rand) (now : ℚ) (g0 : Game) : Game :=
  let dt := (now - g0.lastFrame) / 1000
  let g := { g0 with lastFrame := now }
  if !g.playing then g
  else
    let uH := usingH g
    let g := driftPhase s rnd dt g
    let g := wigglePhase s rnd uH dt g
    let g := pushPhase s dirs dt g
    let g := hPhase s c uH dt g
    let g := movePhase s dt g
    boundaryPhase s c radius dt g

/-- The inputs one frame receives from outside the engine: the held-key set
as mutated by the event listeners since the previous frame, the current
arena geometry, the frame's random samples and its timestamp. -/
structure StepInput where
  keys : List String
  c : Vec2
  radius : ℚ
  rnd : Rand
  now : ℚ
deriving DecidableEq, Repr

/-- One externally-driven frame: the listeners have set the held-key set,
then `loop` runs. -/
def traceStep (s : Settings) (dirs : String → Option Vec2) (g : Game)
    (i : StepInput) : Game :=
  loop s i.c i.radius dirs i.rnd i.now { g with keys := i.keys }

/-- A whole session: fold the frames over the state. -/
def stepTrace (s : Settings) (dirs : String → Option Vec2) :
    Game → List StepInput → Game
  | g, [] => g
  | g, i :: rest => stepTrace s dirs (traceStep s dirs g i) rest

/-- `nowsIncreasingB t inputs`: the frame timestamps strictly increase
starting above `t`; equivalently every frame has `dt > 0`. -/
def nowsIncreasingB : ℚ → List StepInput → Bool
  | _, [] => true
  | t, i :: rest => decide (t < i.now) && nowsIncreasingB i.now rest

/-! ### Derived predicates, spec-side definitions and concrete states -/

/-- The battery bounds of claim C1: charge in `[0, hMax]`, cooldown `≥ 0`. -/
def BatteryInv (s : Settings) (g : Game) : Prop :=
  0 ≤ g.hLeft ∧ g.hLeft ≤ s.hMax ∧ 0 ≤ g.hCooling

/-- The overheat characterization of claim C2 as a state predicate: the flag
is set exactly while the cooldown is running, the charge is 0 whenever the
flag is set, and the cooldown is 0 whenever it is not. -/
def OverheatInv (g : Game) : Prop :=
  (g.hOverheat = true → g.hLeft = 0 ∧ 0 < g.hCooling) ∧
  (g.hOverheat = false → g.hCooling = 0)

/-! ### The spec-side KeyMap.resolve -/

/-- Modelled from the spec: `KeyMap.resolve(heldKeys, excludeKey)` returns
the direction vector of the first held key (in the collection iteration
order) that is present in the map and is not the excluded key, and the zero
vector when no held key qualifies. -/
def resolveSpec (dirs : String → Option Vec2) (excludeKey : String)
    (keys : List String) : Vec2 :=
  match keys.find? (fun k => decide (k ≠ excludeKey) && (dirs k).isSome) with
  | some k => (dirs k).getD ⟨0, 0⟩
  | none => ⟨0, 0⟩

/-! ### Shared concrete states for witnesses and counterexamples -/

/-- All five random samples equal to 1/2 (wiggle contributes exactly 0). -/
def rndHalf : Rand := ⟨1/2, 1/2, 1/2, 1/2, 1/2⟩

/-- All five random samples equal to 1 (wiggle contributes its maximum). -/
def rndOne : Rand := ⟨1, 1, 1, 1, 1⟩

/-- A single quiet frame at timestamp 1000. -/
def inputsW1 : List StepInput := [⟨["h"], ⟨0, 0⟩, 200, rndHalf, 1000⟩]

/-- A live state at distance exactly 180 from the center `{0,0}`. -/
def gBoundaryIn : Game :=
  { playing := true, x := 180, y := 0, sx := 0, sy := 0, keys := [],
    hLeft := 3, hCooling := 0, hOverheat := false, time := 0, lastFrame := 0,
    driftX := 0, driftY := 0, driftTimer := 2 }

/-- The same state at distance 180.01. -/
def gBoundaryOut : Game := { gBoundaryIn with x := 18001/100 }

/-- A dead state with a stored timestamp of 0. -/
def gDead : Game :=
  { playing := false, x := 0, y := 0, sx := 5, sy := 0, keys := [],
    hLeft := 2, hCooling := 0, hOverheat := false, time := 7, lastFrame := 0,
    driftX := 1, driftY := 0, driftTimer := 1 }

/-- A state at the instant the overheat cooldown is about to expire. -/
def gClearing : Game :=
  { playing := true, x := 0, y := 0, sx := 0, sy := 0, keys := [],
    hLeft := 0, hCooling := 1/2, hOverheat := true, time := 3, lastFrame := 0,
    driftX := 0, driftY := 0, driftTimer := 5 }

/-- The state right after the flag cleared, charge still 0. -/
def gRegenStart : Game := { gClearing with hCooling := 0, hOverheat := false }

/-- The state exhibiting the C4 counterexample: alive, moving right at
speed 100, drift timer still positive. -/
def gC4 : Game :=
  { playing := true, x := 0, y := 0, sx := 100, sy := 0, keys := [],
    hLeft := 3, hCooling := 0, hOverheat := false, time := 0, lastFrame := 0,
    driftX := 0, driftY := 0, driftTimer := 1 }

/-- The settings of the C6 scenario as the spec states it: only the drift
magnitude forced to 0. -/
def settingsD0 : Settings := { settings with driftPower := 0 }

/-- The C6 scenario inputs: no keys, center `{0,0}`, radius 200, five frames
of 1 s each, all random samples equal to 1. -/
def inputsC6 : List StepInput :=
  [⟨[], ⟨0, 0⟩, 200, rndOne, 1000⟩, ⟨[], ⟨0, 0⟩, 200, rndOne, 2000⟩,
   ⟨[], ⟨0, 0⟩, 200, rndOne, 3000⟩, ⟨[], ⟨0, 0⟩, 200, rndOne, 4000⟩,
   ⟨[], ⟨0, 0⟩, 200, rndOne, 5000⟩]

/-- The C6 settings amended: drift magnitude AND wiggle magnitude forced
to 0. -/
def settingsCalm : Settings := { settings with driftPower := 0, randomShake := 0 }

/-- The quiet-scenario state: at the center, at rest, no drift, no keys,
full battery. -/
def Calm (w h : ℚ) (g : Game) : Prop :=
  g.playing = true ∧ g.x = w / 2 ∧ g.y = h / 2 ∧ g.sx = 0 ∧ g.sy = 0 ∧
  g.driftX = 0 ∧ g.driftY = 0 ∧ g.keys = [] ∧ g.hLeft = 3 ∧ g.hCooling = 0 ∧
  g.hOverheat = false

/-- The five 1-second quiet frames of the C6 scenario, with arbitrary
per-frame random samples. -/
def calmInputs (w h radius t0 : ℚ) (r1 r2 r3 r4 r5 : Rand) : List StepInput :=
  [⟨[], ⟨w / 2, h / 2⟩, radius, r1, t0 + 1000⟩,
   ⟨[], ⟨w / 2, h / 2⟩, radius, r2, t0 + 2000⟩,
   ⟨[], ⟨w / 2, h / 2⟩, radius, r3, t0 + 3000⟩,
   ⟨[], ⟨w / 2, h / 2⟩, radius, r4, t0 + 4000⟩,
   ⟨[], ⟨w / 2, h / 2⟩, radius, r5, t0 + 5000⟩]

/-! ### Field plumbing: which phase touches which field -/

section Plumbing

variable {s : Settings} {c : Vec2} {radius dt v : ℚ}
variable {dirs : String → Option Vec2} {rnd : Rand} {uH : Bool} {g : Game}

@[simp] lemma usingH_lastFrame : usingH { g with lastFrame := v } = usingH g := rfl

@[simp] lemma pickNewDrift_playing : (pickNewDrift s rnd g).playing = g.playing := rfl
@[simp] lemma pickNewDrift_x : (pickNewDrift s rnd g).x = g.x := rfl
@[simp] lemma pickNewDrift_y : (pickNewDrift s rnd g).y = g.y := rfl
@[simp] lemma pickNewDrift_sx : (pickNewDrift s rnd g).sx = g.sx := rfl
@[simp] lemma pickNewDrift_sy : (pickNewDrift s rnd g).sy = g.sy := rfl
@[simp] lemma pickNewDrift_keys : (pickNewDrift s rnd g).keys = g.keys := rfl
@[simp] lemma pickNewDrift_hLeft : (pickNewDrift s rnd g).hLeft = g.hLeft := rfl
@[simp] lemma pickNewDrift_hCooling : (pickNewDrift s rnd g).hCooling = g.hCooling := rfl
@[simp] lemma pickNewDrift_hOverheat : (pickNewDrift s rnd g).hOverheat = g.hOverheat := rfl
@[simp] lemma pickNewDrift_time : (pickNewDrift s rnd g).time = g.time := rfl
@[simp] lemma pickNewDrift_lastFrame : (pickNewDrift s rnd g).lastFrame = g.lastFrame := rfl

@[simp] lemma driftPhase_playing : (driftPhase s rnd dt g).playing = g.playing := by
  simp only [driftPhase]; split <;> rfl
@[simp] lemma driftPhase_x : (driftPhase s rnd dt g).x = g.x := by
  simp only [driftPhase]; split <;> rfl
@[simp] lemma driftPhase_y : (driftPhase s rnd dt g).y = g.y := by
  simp only [driftPhase]; split <;> rfl
@[simp] lemma driftPhase_keys : (driftPhase s rnd dt g).keys = g.keys := by
  simp only [driftPhase]; split <;> rfl
@[simp] lemma driftPhase_hLeft : (driftPhase s rnd dt g).hLeft = g.hLeft := by
  simp only [driftPhase]; split <;> rfl
@[simp] lemma driftPhase_hCooling : (driftPhase s rnd dt g).hCooling = g.hCooling := by
  simp only [driftPhase]; split <;> rfl
@[simp] lemma driftPhase_hOverheat : (driftPhase s rnd dt g).hOverheat = g.hOverheat := by
  simp only [driftPhase]; split <;> rfl
@[simp] lemma driftPhase_time : (driftPhase s rnd dt g).time = g.time := by
  simp only [driftPhase]; split <;> rfl
@[simp] lemma driftPhase_lastFrame : (driftPhase s rnd dt g).lastFrame = g.lastFrame := by
  simp only [driftPhase]; split <;> rfl

@[simp] lemma wigglePhase_playing : (wigglePhase s rnd uH dt g).playing = g.playing := by
  simp only [wigglePhase]; split <;> rfl
@[simp] lemma wigglePhase_x : (wigglePhase s rnd uH dt g).x = g.x := by
  simp only [wigglePhase]; split <;> rfl
@[simp] lemma wigglePhase_y : (wigglePhase s rnd uH dt g).y = g.y := by
  simp only [wigglePhase]; split <;> rfl
@[simp] lemma wigglePhase_keys : (wigglePhase s rnd uH dt g).keys = g.keys := by
  simp only [wigglePhase]; split <;> rfl
@[simp] lemma wigglePhase_hLeft : (wigglePhase s rnd uH dt g).hLeft = g.hLeft := by
  simp only [wigglePhase]; split <;> rfl
@[simp] lemma wigglePhase_hCooling : (wigglePhase s rnd uH dt g).hCooling = g.hCooling := by
  simp only [wigglePhase]; split <;> rfl
@[simp] lemma wigglePhase_hOverheat : (wigglePhase s rnd uH dt g).hOverheat = g.hOverheat := by
  simp only [wigglePhase]; split <;> rfl
@[simp] lemma wigglePhase_time : (wigglePhase s rnd uH dt g).time = g.time := by
  simp only [wigglePhase]; split <;> rfl
@[simp] lemma wigglePhase_lastFrame : (wigglePhase s rnd uH dt g).lastFrame = g.lastFrame := by
  simp only [wigglePhase]; split <;> rfl
@[simp] lemma wigglePhase_driftTimer : (wigglePhase s rnd uH dt g).driftTimer = g.driftTimer := by
  simp only [wigglePhase]; split <;> rfl

@[simp] lemma pushPhase_playing : (pushPhase s dirs dt g).playing = g.playing := rfl
@[simp] lemma pushPhase_x : (pushPhase s dirs dt g).x = g.x := rfl
@[simp] lemma pushPhase_y : (pushPhase s dirs dt g).y = g.y := rfl
@[simp] lemma pushPhase_keys : (pushPhase s dirs dt g).keys = g.keys := rfl
@[simp] lemma pushPhase_hLeft : (pushPhase s dirs dt g).hLeft = g.hLeft := rfl
@[simp] lemma pushPhase_hCooling : (pushPhase s dirs dt g).hCooling = g.hCooling := rfl
@[simp] lemma pushPhase_hOverheat : (pushPhase s dirs dt g).hOverheat = g.hOverheat := rfl
@[simp] lemma pushPhase_time : (pushPhase s dirs dt g).time = g.time := rfl
@[simp] lemma pushPhase_lastFrame : (pushPhase s dirs dt g).lastFrame = g.lastFrame := rfl
@[simp] lemma pushPhase_driftTimer : (pushPhase s dirs dt g).driftTimer = g.driftTimer := rfl

@[simp] lemma hPhase_playing : (hPhase s c uH dt g).playing = g.playing := by
  simp only [hPhase]; split_ifs <;> rfl
@[simp] lemma hPhase_x : (hPhase s c uH dt g).x = g.x := by
  simp only [hPhase]; split_ifs <;> rfl
@[simp] lemma hPhase_y : (hPhase s c uH dt g).y = g.y := by
  simp only [hPhase]; split_ifs <;> rfl
@[simp] lemma hPhase_keys : (hPhase s c uH dt g).keys = g.keys := by
  simp only [hPhase]; split_ifs <;> rfl
@[simp] lemma hPhase_time : (hPhase s c uH dt g).time = g.time := by
  simp only [hPhase]; split_ifs <;> rfl
@[simp] lemma hPhase_lastFrame : (hPhase s c uH dt g).lastFrame = g.lastFrame := by
  simp only [hPhase]; split_ifs <;> rfl
@[simp] lemma hPhase_driftTimer : (hPhase s c uH dt g).driftTimer = g.driftTimer := by
  simp only [hPhase]; split_ifs <;> rfl

@[simp] lemma movePhase_playing : (movePhase s dt g).playing = g.playing := rfl
@[simp] lemma movePhase_keys : (movePhase s dt g).keys = g.keys := rfl
@[simp] lemma movePhase_hLeft : (movePhase s dt g).hLeft = g.hLeft := rfl
@[simp] lemma movePhase_hCooling : (movePhase s dt g).hCooling = g.hCooling := rfl
@[simp] lemma movePhase_hOverheat : (movePhase s dt g).hOverheat = g.hOverheat := rfl
@[simp] lemma movePhase_time : (movePhase s dt g).time = g.time := rfl
@[simp] lemma movePhase_lastFrame : (movePhase s dt g).lastFrame = g.lastFrame := rfl
@[simp] lemma movePhase_driftTimer : (movePhase s dt g).driftTimer = g.driftTimer := rfl
@[simp] lemma movePhase_driftX : (movePhase s dt g).driftX = g.driftX := rfl
@[simp] lemma movePhase_driftY : (movePhase s dt g).driftY = g.driftY := rfl
@[simp] lemma movePhase_x : (movePhase s dt g).x = g.x + g.sx * dt := rfl
@[simp] lemma movePhase_y : (movePhase s dt g).y = g.y + g.sy * dt := rfl
@[simp] lemma movePhase_sx : (movePhase s dt g).sx = g.sx * s.slowDown := rfl
@[simp] lemma movePhase_sy : (movePhase s dt g).sy = g.sy * s.slowDown := rfl

@[simp] lemma boundaryPhase_x : (boundaryPhase s c radius dt g).x = g.x := by
  simp only [boundaryPhase]; split <;> rfl
@[simp] lemma boundaryPhase_y : (boundaryPhase s c radius dt g).y = g.y := by
  simp only [boundaryPhase]; split <;> rfl
@[simp] lemma boundaryPhase_sx : (boundaryPhase s c radius dt g).sx = g.sx := by
  simp only [boundaryPhase]; split <;> rfl
@[simp] lemma boundaryPhase_sy : (boundaryPhase s c radius dt g).sy = g.sy := by
  simp only [boundaryPhase]; split <;> rfl
@[simp] lemma boundaryPhase_keys : (boundaryPhase s c radius dt g).keys = g.keys := by
  simp only [boundaryPhase]; split <;> rfl
@[simp] lemma boundaryPhase_hLeft : (boundaryPhase s c radius dt g).hLeft = g.hLeft := by
  simp only [boundaryPhase]; split <;> rfl
@[simp] lemma boundaryPhase_hCooling : (boundaryPhase s c radius dt g).hCooling = g.hCooling := by
  simp only [boundaryPhase]; split <;> rfl
@[simp] lemma boundaryPhase_hOverheat : (boundaryPhase s c radius dt g).hOverheat = g.hOverheat := by
  simp only [boundaryPhase]; split <;> rfl
@[simp] lemma boundaryPhase_lastFrame : (boundaryPhase s c radius dt g).lastFrame = g.lastFrame := by
  simp only [boundaryPhase]; split <;> rfl
@[simp] lemma boundaryPhase_driftTimer : (boundaryPhase s c radius dt g).driftTimer = g.driftTimer := by
  simp only [boundaryPhase]; split <;> rfl

/-- A live frame is the composition of the six phases, run on the state with
the timestamp already stored. -/
lemma loop_of_playing (g0 : Game) (h : g0.playing = true) :
    loop s c radius dirs rnd now g0 =
      boundaryPhase s c radius ((now - g0.lastFrame) / 1000)
        (movePhase s ((now - g0.lastFrame) / 1000)
          (hPhase s c (usingH g0) ((now - g0.lastFrame) / 1000)
            (pushPhase s dirs ((now - g0.lastFrame) / 1000)
              (wigglePhase s rnd (usingH g0) ((now - g0.lastFrame) / 1000)
                (driftPhase s rnd ((now - g0.lastFrame) / 1000)
                  { g0 with lastFrame := now }))))) := by
  simp only [loop]
  rw [if_neg (by simp [h])]
  rfl

/-- A dead frame records the timestamp and returns. -/
lemma loop_of_dead (g0 : Game) (h : g0.playing = false) :
    loop s c radius dirs rnd now g0 = { g0 with lastFrame := now } := by
  simp only [loop, h, Bool.not_false, if_true]

/-- `lastFrame` is unconditionally overwritten with the frame timestamp. -/
@[simp] lemma loop_lastFrame (g0 : Game) :
    (loop s c radius dirs rnd now g0).lastFrame = now := by
  cases h : g0.playing
  · rw [loop_of_dead g0 h]
  · rw [loop_of_playing g0 h]
    simp

lemma usingH_eq_true_iff :
    usingH g = true ↔
      g.keys.contains "h" = true ∧ g.hOverheat = false ∧ 0 < g.hLeft := by
  simp [usingH, canUseH, Bool.and_eq_true, and_assoc]

end Plumbing

/-! ### Battery / overheat state machine -/

section HState

variable {s : Settings} {c : Vec2} {radius dt now : ℚ}
variable {dirs : String → Option Vec2} {rnd : Rand} {uH : Bool} {g : Game}

/-- `hPhase` reads and writes only the three battery fields. -/
lemma hPhase_hFields_eq (g' g : Game) (e1 : g'.hLeft = g.hLeft)
    (e2 : g'.hCooling = g.hCooling) (e3 : g'.hOverheat = g.hOverheat) :
    (hPhase s c uH dt g').hLeft = (hPhase s c uH dt g).hLeft ∧
    (hPhase s c uH dt g').hCooling = (hPhase s c uH dt g).hCooling ∧
    (hPhase s c uH dt g').hOverheat = (hPhase s c uH dt g).hOverheat := by
  simp only [hPhase, e1, e2, e3]
  split_ifs <;> simp [e1, e2, e3]

/-- On a live frame, the battery fields of the loop result are those of
`hPhase` run on the incoming state (the other phases do not touch them). -/
lemma loop_hState (g0 : Game) (hp : g0.playing = true) :
    (loop s c radius dirs rnd now g0).hLeft =
      (hPhase s c (usingH g0) ((now - g0.lastFrame) / 1000) g0).hLeft ∧
    (loop s c radius dirs rnd now g0).hCooling =
      (hPhase s c (usingH g0) ((now - g0.lastFrame) / 1000) g0).hCooling ∧
    (loop s c radius dirs rnd now g0).hOverheat =
      (hPhase s c (usingH g0) ((now - g0.lastFrame) / 1000) g0).hOverheat := by
  rw [loop_of_playing g0 hp]
  simp only [boundaryPhase_hLeft, boundaryPhase_hCooling, boundaryPhase_hOverheat,
    movePhase_hLeft, movePhase_hCooling, movePhase_hOverheat]
  exact hPhase_hFields_eq _ _ (by simp) (by simp) (by simp)

/-- `hPhase` preserves the battery bounds when `dt ≥ 0`. -/
lemma hPhase_batteryInv (hMax : 0 ≤ s.hMax) (hRegen : 0 ≤ s.hRegen)
    (hCd : 0 ≤ s.hCooldown) (hdt : 0 ≤ dt) (h : BatteryInv s g) :
    BatteryInv s (hPhase s c uH dt g) := by
  obtain ⟨i1, i2, i3⟩ := h
  simp only [hPhase, BatteryInv]
  split_ifs with huH hz hov hc
  · exact ⟨le_max_left 0 _, max_le hMax (by linarith), hCd⟩
  · exact ⟨le_max_left 0 _, max_le hMax (by linarith), i3⟩
  · exact ⟨i1, i2, le_max_left 0 _⟩
  · exact ⟨i1, i2, le_max_left 0 _⟩
  · exact ⟨le_min hMax (add_nonneg i1 (mul_nonneg hRegen hdt)), min_le_left _ _, i3⟩

/-- `hPhase` preserves the overheat characterization, for any `dt`, provided
the configured cooldown is positive and the ability is only reported active
on non-overheated states (which `usingH` guarantees). -/
lemma hPhase_overheatInv (hCd : 0 < s.hCooldown)
    (hu : uH = true → g.hOverheat = false) (h : OverheatInv g) :
    OverheatInv (hPhase s c uH dt g) := by
  obtain ⟨h1, h2⟩ := h
  simp only [hPhase, OverheatInv]
  split_ifs with huH hz hov hc
  · exact ⟨fun _ => ⟨hz, hCd⟩, by simp⟩
  · refine ⟨fun hx => absurd hx (by simp [hu huH]), fun _ => h2 (hu huH)⟩
  · exact ⟨by simp, fun _ => hc⟩
  · refine ⟨fun _ => ⟨(h1 hov).1, lt_of_le_of_ne (le_max_left 0 _) (Ne.symm hc)⟩, by simp [hov]⟩
  · refine ⟨fun hx => absurd hx hov, fun _ => h2 (by revert hov; cases g.hOverheat <;> simp)⟩

/-- The only transition that sets the overheat flag is depletion during
active ability use: it leaves the charge at exactly 0 and loads the
cooldown. -/
lemma hPhase_trip (hov : g.hOverheat = false)
    (ht : (hPhase s c uH dt g).hOverheat = true) :
    uH = true ∧ (hPhase s c uH dt g).hLeft = 0 ∧
    (hPhase s c uH dt g).hCooling = s.hCooldown := by
  simp only [hPhase] at ht ⊢
  split_ifs at ht ⊢ with huH hz hov2 hc
  · exact ⟨huH, hz, rfl⟩
  · exact absurd ht (by simp [hov])
  · exact absurd (hov.symm.trans hov2) Bool.false_ne_true
  · exact absurd (hov.symm.trans ht) Bool.false_ne_true

end HState

/-! ### Loop- and session-level invariants -/

section LoopInv

variable {s : Settings} {c : Vec2} {radius now : ℚ}
variable {dirs : String → Option Vec2} {rnd : Rand}

/-- One frame with `dt ≥ 0` preserves the battery bounds. -/
lemma loop_batteryInv (g0 : Game) (hMax : 0 ≤ s.hMax) (hRegen : 0 ≤ s.hRegen)
    (hCd : 0 ≤ s.hCooldown) (hdt : g0.lastFrame ≤ now) (h : BatteryInv s g0) :
    BatteryInv s (loop s c radius dirs rnd now g0) := by
  cases hp : g0.playing
  · rw [loop_of_dead g0 hp]; exact h
  · obtain ⟨e1, e2, _⟩ := @loop_hState s c radius now dirs rnd g0 hp
    rw [BatteryInv, e1, e2]
    exact hPhase_batteryInv hMax hRegen hCd
      (div_nonneg (sub_nonneg.mpr hdt) (by norm_num)) h

/-- One frame (any `dt`) preserves the overheat characterization. -/
lemma loop_overheatInv (g0 : Game) (hCd : 0 < s.hCooldown) (h : OverheatInv g0) :
    OverheatInv (loop s c radius dirs rnd now g0) := by
  cases hp : g0.playing
  · rw [loop_of_dead g0 hp]; exact h
  · obtain ⟨e1, e2, e3⟩ := @loop_hState s c radius now dirs rnd g0 hp
    rw [OverheatInv, e1, e2, e3]
    exact hPhase_overheatInv hCd (fun hx => (usingH_eq_true_iff.mp hx).2.1) h

/-- The loop sets the overheat flag only by depleting the charge to exactly 0
during active ability use, loading the cooldown at the same moment. -/
lemma loop_overheat_trip (g0 : Game) (hov : g0.hOverheat = false)
    (ht : (loop s c radius dirs rnd now g0).hOverheat = true) :
    g0.keys.contains "h" = true ∧ 0 < g0.hLeft ∧
    (loop s c radius dirs rnd now g0).hLeft = 0 ∧
    (loop s c radius dirs rnd now g0).hCooling = s.hCooldown := by
  cases hp : g0.playing
  · rw [loop_of_dead g0 hp] at ht
    exact absurd (hov.symm.trans ht) Bool.false_ne_true
  · obtain ⟨e1, e2, e3⟩ := @loop_hState s c radius now dirs rnd g0 hp
    rw [e3] at ht
    obtain ⟨huH, hL, hC⟩ := hPhase_trip hov ht
    obtain ⟨k1, _, k3⟩ := usingH_eq_true_iff.mp huH
    exact ⟨k1, k3, e1.trans hL, e2.trans hC⟩

@[simp] lemma traceStep_lastFrame (g : Game) (i : StepInput) :
    (traceStep s dirs g i).lastFrame = i.now := by
  simp [traceStep]

/-- Sessions with strictly increasing timestamps preserve the battery
bounds. -/
lemma stepTrace_batteryInv (hMax : 0 ≤ s.hMax) (hRegen : 0 ≤ s.hRegen)
    (hCd : 0 ≤ s.hCooldown) :
    ∀ (inputs : List StepInput) (g : Game), BatteryInv s g →
      nowsIncreasingB g.lastFrame inputs = true →
      BatteryInv s (stepTrace s dirs g inputs) := by
  intro inputs
  induction inputs with
  | nil => exact fun g h _ => h
  | cons i rest ih =>
    intro g h hinc
    simp only [nowsIncreasingB, Bool.and_eq_true, decide_eq_true_eq] at hinc
    obtain ⟨hlt, hrest⟩ := hinc
    simp only [stepTrace]
    refine ih _ ?_ ?_
    · exact loop_batteryInv _ hMax hRegen hCd (le_of_lt hlt) h
    · rw [traceStep_lastFrame]; exact hrest

/-- Sessions preserve the overheat characterization (any timestamps). -/
lemma stepTrace_overheatInv (hCd : 0 < s.hCooldown) :
    ∀ (inputs : List StepInput) (g : Game), OverheatInv g →
      OverheatInv (stepTrace s dirs g inputs) := by
  intro inputs
  induction inputs with
  | nil => exact fun g h => h
  | cons i rest ih =>
    intro g h
    simp only [stepTrace]
    exact ih _ (loop_overheatInv _ hCd h)

end LoopInv

/-! ### KeyMap lemmas -/

section KeyMap

variable {dirs : String → Option Vec2}

/-- Folding `mapSet` over entries that never mention `k` does not change the
lookup at `k`. -/
lemma foldSet_of_not_mem (es : List (String × Vec2)) (m : String → Option Vec2)
    (k : String) (hk : k ∉ es.map Prod.fst) :
    (es.foldl (fun m e => mapSet m e.1 e.2) m) k = m k := by
  induction es generalizing m with
  | nil => rfl
  | cons e es ih =>
    simp only [List.map_cons, List.mem_cons, not_or] at hk
    rw [List.foldl_cons, ih _ hk.2, mapSet, if_neg hk.1]

/-- If every entry carrying key `k` carries the value `v`, and some entry
carries `k`, then the built map returns `v` at `k`. -/
lemma foldSet_of_const (es : List (String × Vec2)) (m : String → Option Vec2)
    (k : String) (v : Vec2)
    (hval : ∀ e ∈ es, e.1 = k → e.2 = v) (hmem : k ∈ es.map Prod.fst) :
    (es.foldl (fun m e => mapSet m e.1 e.2) m) k = some v := by
  induction es generalizing m with
  | nil => simp at hmem
  | cons e es ih =>
    rw [List.foldl_cons]
    by_cases hk : k ∈ es.map Prod.fst
    · exact ih _ (fun e' he' => hval e' (List.mem_cons_of_mem e he')) hk
    · have hek : e.1 = k := by
        simp only [List.map_cons, List.mem_cons] at hmem
        exact ((hmem.resolve_right hk)).symm
      rw [foldSet_of_not_mem es _ k hk, mapSet, if_pos hek.symm,
        hval e (List.mem_cons_self e es) hek]

/-- Membership characterization for the entries of one row. -/
lemma mem_rowEntriesAux {w R r : ℕ} {e : String × Vec2} :
    ∀ (c0 : ℕ) (chars : List Char), e ∈ rowEntriesAux w R r c0 chars →
      ∃ i ch, chars.get? i = some ch ∧ e = (String.mk [ch], keyVec w R r (c0 + i)) := by
  intro c0 chars
  induction chars generalizing c0 with
  | nil => simp [rowEntriesAux]
  | cons ch chars ih =>
    intro he
    rw [rowEntriesAux] at he
    rcases List.mem_cons.mp he with he | he
    · exact ⟨0, ch, rfl, by simpa using he⟩
    · obtain ⟨i, ch', hg, hv⟩ := ih _ he
      exact ⟨i + 1, ch', by simpa using hg, by rw [hv]; ring_nf⟩

/-- Converse: each character position contributes its entry. -/
lemma rowEntriesAux_mem {w R r : ℕ} :
    ∀ (c0 i : ℕ) {chars : List Char} {ch : Char}, chars.get? i = some ch →
      (String.mk [ch], keyVec w R r (c0 + i)) ∈ rowEntriesAux w R r c0 chars := by
  intro c0 i chars
  induction chars generalizing c0 i with
  | nil => intro ch h; simp at h
  | cons ch0 chars ih =>
    intro ch h
    rcases i with _ | i
    · simp only [List.get?] at h
      cases h
      exact by rw [rowEntriesAux]; exact List.mem_cons_self _ _
    · simp only [List.get?] at h
      have := ih (c0 + 1) i h
      rw [rowEntriesAux]
      refine List.mem_cons_of_mem _ ?_
      have harith : c0 + 1 + i = c0 + (i + 1) := by ring
      rwa [harith] at this

/-- Membership characterization for the whole entry list. -/
lemma mem_keyEntriesAux {w R : ℕ} {e : String × Vec2} :
    ∀ (r0 : ℕ) (rs : List String), e ∈ keyEntriesAux w R r0 rs →
      ∃ j row, rs.get? j = some row ∧ e ∈ rowEntries w R (r0 + j) row := by
  intro r0 rs
  induction rs generalizing r0 with
  | nil => simp [keyEntriesAux]
  | cons row rs ih =>
    intro he
    rw [keyEntriesAux] at he
    rcases List.mem_append.mp he with he | he
    · exact ⟨0, row, rfl, by simpa using he⟩
    · obtain ⟨j, row', hg, hv⟩ := ih _ he
      refine ⟨j + 1, row', by simpa using hg, ?_⟩
      have harith : r0 + (j + 1) = r0 + 1 + j := by ring
      rwa [harith]

/-- Converse: each row position contributes its entries. -/
lemma keyEntriesAux_mem {w R : ℕ} {e : String × Vec2} :
    ∀ (r0 j : ℕ) {rs : List String} {row : String}, rs.get? j = some row →
      e ∈ rowEntries w R (r0 + j) row → e ∈ keyEntriesAux w R r0 rs := by
  intro r0 j rs
  induction rs generalizing r0 j with
  | nil => intro row h; simp at h
  | cons row0 rs ih =>
    intro row h he
    rcases j with _ | j
    · simp only [List.get?] at h
      cases h
      rw [keyEntriesAux]
      exact List.mem_append.mpr (Or.inl (by simpa using he))
    · simp only [List.get?] at h
      rw [keyEntriesAux]
      refine List.mem_append.mpr (Or.inr ?_)
      refine ih (r0 + 1) j h ?_
      have harith : r0 + 1 + j = r0 + (j + 1) := by ring
      rwa [harith]

/-- Single-character strings are equal only when the characters are. -/
lemma stringMk_single_inj {a b : Char} (h : String.mk [a] = String.mk [b]) :
    a = b := by
  cases h
  rfl

end KeyMap

/-! ### The map built by makeKeyMap -/

/-- The general lookup formula: if `ch` sits at row `r`, column `c`, and at
no other position of the layout, then the built map sends its key to
`x = (c/(widest-1))*2 - 1`, `y = (r/(R-1))*2 - 1`. -/
lemma makeKeyMap_formula (rs : List String) (r c : ℕ) (row : String) (ch : Char)
    (hr : rs.get? r = some row) (hc : row.toList.get? c = some ch)
    (huniq : ∀ r' c' row', rs.get? r' = some row' →
      row'.toList.get? c' = some ch → r' = r ∧ c' = c) :
    makeKeyMap rs (String.mk [ch]) =
      some ⟨((c : ℚ) / ((widestRow rs : ℚ) - 1)) * 2 - 1,
            ((r : ℚ) / ((rs.length : ℚ) - 1)) * 2 - 1⟩ := by
  have hrow : (String.mk [ch], keyVec (widestRow rs) rs.length r c) ∈
      rowEntries (widestRow rs) rs.length r row := by
    have h2 := rowEntriesAux_mem (w := widestRow rs) (R := rs.length) (r := r)
      0 c hc
    simpa [rowEntries] using h2
  have hmem : (String.mk [ch], keyVec (widestRow rs) rs.length r c) ∈
      keyEntries rs := by
    rw [keyEntries]
    exact keyEntriesAux_mem 0 r hr (by simpa using hrow)
  have hkey : String.mk [ch] ∈ (keyEntries rs).map Prod.fst :=
    List.mem_map.mpr ⟨_, hmem, rfl⟩
  have hval : ∀ e ∈ keyEntries rs, e.1 = String.mk [ch] →
      e.2 = keyVec (widestRow rs) rs.length r c := by
    intro e he hk
    rw [keyEntries] at he
    obtain ⟨j, row', hj, he2⟩ := mem_keyEntriesAux _ _ he
    rw [rowEntries] at he2
    obtain ⟨i, ch', hi, hev⟩ := mem_rowEntriesAux _ _ he2
    have hch : ch' = ch := by
      apply stringMk_single_inj
      rw [hev] at hk
      exact hk
    subst hch
    obtain ⟨hj2, hi2⟩ := huniq j i row' (by simpa using hj) hi
    rw [hev]
    simp [hj2, hi2]
  rw [makeKeyMap, foldSet_of_const _ _ _ _ hval hkey]
  rfl

/-- Destructing `get?` on a two-element list. -/
lemma mem_two {α : Type _} {x y z : α} {r' : ℕ}
    (h : ([x, y] : List α).get? r' = some z) :
    (r' = 0 ∧ x = z) ∨ (r' = 1 ∧ y = z) := by
  rcases r' with _ | _ | r'
  · simp only [List.get?] at h
    injection h with h
    exact Or.inl ⟨rfl, h⟩
  · simp only [List.get?] at h
    injection h with h
    exact Or.inr ⟨rfl, h⟩
  · simp only [List.get?] at h
    exact Option.noConfusion h

lemma uniq_a : ∀ (r' c' : ℕ) (row' : String),
    (["ab", "cd"] : List String).get? r' = some row' →
    row'.toList.get? c' = some 'a' → r' = 0 ∧ c' = 0 := by
  intro r' c' row' h1 h2
  rcases mem_two h1 with ⟨hr, hrow⟩ | ⟨hr, hrow⟩ <;> subst hrow <;>
    simp only [show ("ab" : String).toList = ['a', 'b'] from rfl,
      show ("cd" : String).toList = ['c', 'd'] from rfl] at h2 <;>
    rcases mem_two h2 with ⟨hcc, hch⟩ | ⟨hcc, hch⟩
  · exact ⟨hr, hcc⟩
  · exact absurd hch (by decide)
  · exact absurd hch (by decide)
  · exact absurd hch (by decide)

lemma uniq_b : ∀ (r' c' : ℕ) (row' : String),
    (["ab", "cd"] : List String).get? r' = some row' →
    row'.toList.get? c' = some 'b' → r' = 0 ∧ c' = 1 := by
  intro r' c' row' h1 h2
  rcases mem_two h1 with ⟨hr, hrow⟩ | ⟨hr, hrow⟩ <;> subst hrow <;>
    simp only [show ("ab" : String).toList = ['a', 'b'] from rfl,
      show ("cd" : String).toList = ['c', 'd'] from rfl] at h2 <;>
    rcases mem_two h2 with ⟨hcc, hch⟩ | ⟨hcc, hch⟩
  · exact absurd hch (by decide)
  · exact ⟨hr, hcc⟩
  · exact absurd hch (by decide)
  · exact absurd hch (by decide)

lemma uniq_c : ∀ (r' c' : ℕ) (row' : String),
    (["ab", "cd"] : List String).get? r' = some row' →
    row'.toList.get? c' = some 'c' → r' = 1 ∧ c' = 0 := by
  intro r' c' row' h1 h2
  rcases mem_two h1 with ⟨hr, hrow⟩ | ⟨hr, hrow⟩ <;> subst hrow <;>
    simp only [show ("ab" : String).toList = ['a', 'b'] from rfl,
      show ("cd" : String).toList = ['c', 'd'] from rfl] at h2 <;>
    rcases mem_two h2 with ⟨hcc, hch⟩ | ⟨hcc, hch⟩
  · exact absurd hch (by decide)
  · exact absurd hch (by decide)
  · exact ⟨hr, hcc⟩
  · exact absurd hch (by decide)

lemma uniq_d : ∀ (r' c' : ℕ) (row' : String),
    (["ab", "cd"] : List String).get? r' = some row' →
    row'.toList.get? c' = some 'd' → r' = 1 ∧ c' = 1 := by
  intro r' c' row' h1 h2
  rcases mem_two h1 with ⟨hr, hrow⟩ | ⟨hr, hrow⟩ <;> subst hrow <;>
    simp only [show ("ab" : String).toList = ['a', 'b'] from rfl,
      show ("cd" : String).toList = ['c', 'd'] from rfl] at h2 <;>
    rcases mem_two h2 with ⟨hcc, hch⟩ | ⟨hcc, hch⟩
  · exact absurd hch (by decide)
  · exact absurd hch (by decide)
  · exact absurd hch (by decide)
  · exact ⟨hr, hcc⟩

/-- `getKeyDirection` agrees with the spec-side resolver that excludes the
key `"h"`. -/
lemma getKeyDirection_eq_resolveSpec (dirs : String → Option Vec2)
    (keys : List String) :
    getKeyDirection dirs keys = resolveSpec dirs "h" keys := by
  induction keys with
  | nil => rfl
  | cons k rest ih =>
    by_cases hk : k = "h"
    · subst hk
      rw [getKeyDirection, if_pos rfl, resolveSpec,
        List.find?_cons_of_neg _ (by simp)]
      exact ih
    · cases hd : dirs k with
      | some d =>
        rw [getKeyDirection, if_neg hk, hd, resolveSpec,
          List.find?_cons_of_pos _ (by simp [hk, hd])]
        simp [hd]
      | none =>
        rw [getKeyDirection, if_neg hk, hd, resolveSpec,
          List.find?_cons_of_neg _ (by simp [hd])]
        exact ih

/-! ### Claims -/

/-- Claim C7: `KeyMap.build` maps the character at row `r`, column `c` of an
`R`-row layout to `x = (c/(maxRowLength-1))*2 - 1`, `y = (r/(R-1))*2 - 1`,
normalizing `x` by the widest row's length; in particular
`build(["ab","cd"])` yields `'a'↦{-1,-1}`, `'b'↦{1,-1}`, `'c'↦{-1,1}`,
`'d'↦{1,1}`.  (The character is required to occur at a single position, as
it does in any real keyboard layout; with duplicates the later `Map.set`
would win.) -/
theorem claimC7_keymap (rs : List String) (r c : ℕ) (row : String) (ch : Char)
    (hr : rs.get? r = some row) (hc : row.toList.get? c = some ch)
    (huniq : ∀ r' c' row', rs.get? r' = some row' →
      row'.toList.get? c' = some ch → r' = r ∧ c' = c) :
    makeKeyMap rs (String.mk [ch]) =
      some ⟨((c : ℚ) / ((widestRow rs : ℚ) - 1)) * 2 - 1,
            ((r : ℚ) / ((rs.length : ℚ) - 1)) * 2 - 1⟩ ∧
    makeKeyMap ["ab", "cd"] "a" = some ⟨-1, -1⟩ ∧
    makeKeyMap ["ab", "cd"] "b" = some ⟨1, -1⟩ ∧
    makeKeyMap ["ab", "cd"] "c" = some ⟨-1, 1⟩ ∧
    makeKeyMap ["ab", "cd"] "d" = some ⟨1, 1⟩ := by
  have hw : widestRow ["ab", "cd"] = 2 := rfl
  have hl : (["ab", "cd"] : List String).length = 2 := rfl
  refine ⟨makeKeyMap_formula rs r c row ch hr hc huniq, ?_, ?_, ?_, ?_⟩
  · have h := makeKeyMap_formula ["ab", "cd"] 0 0 "ab" 'a' rfl rfl uniq_a
    rw [show String.mk ['a'] = "a" from rfl, hw, hl] at h
    rw [h]
    norm_num
  · have h := makeKeyMap_formula ["ab", "cd"] 0 1 "ab" 'b' rfl rfl uniq_b
    rw [show String.mk ['b'] = "b" from rfl, hw, hl] at h
    rw [h]
    norm_num
  · have h := makeKeyMap_formula ["ab", "cd"] 1 0 "cd" 'c' rfl rfl uniq_c
    rw [show String.mk ['c'] = "c" from rfl, hw, hl] at h
    rw [h]
    norm_num
  · have h := makeKeyMap_formula ["ab", "cd"] 1 1 "cd" 'd' rfl rfl uniq_d
    rw [show String.mk ['d'] = "d" from rfl, hw, hl] at h
    rw [h]
    norm_num

/-- Witness for C7: the four concrete 2×2 lookups, obtained by applying the
theorem at row 0, column 0, character 'a'. -/
theorem claimC7_keymap_witness :
    makeKeyMap ["ab", "cd"] "a" = some ⟨-1, -1⟩ ∧
    makeKeyMap ["ab", "cd"] "b" = some ⟨1, -1⟩ ∧
    makeKeyMap ["ab", "cd"] "c" = some ⟨-1, 1⟩ ∧
    makeKeyMap ["ab", "cd"] "d" = some ⟨1, 1⟩ :=
  (claimC7_keymap ["ab", "cd"] 0 0 "ab" 'a' rfl rfl uniq_a).2

/-- Claim C8: for every held-keys collection, resolution returns the
direction vector of the first key in iteration order that is mapped and is
not the ability key `"h"`, and the zero vector `{x:0,y:0}` when no held key
is both mapped and different from the ability key.  `resolveSpec` is the
spec-side description; `getKeyDirection` is the code. -/
theorem claimC8_resolve_first (dirs : String → Option Vec2)
    (keys : List String) :
    getKeyDirection dirs keys = resolveSpec dirs "h" keys :=
  getKeyDirection_eq_resolveSpec dirs keys

/-- Claim C1: for every step sequence with `dt > 0` (strictly increasing
timestamps) from the initial session state (charge = `hMax`, cooldown = 0),
the charge stays in `[0, hMax]` and the cooldown stays `≥ 0`. -/
theorem claimC1_battery_bounds (s : Settings) (hMax : 0 ≤ s.hMax)
    (hRegen : 0 ≤ s.hRegen) (hCd : 0 ≤ s.hCooldown)
    (dirs : String → Option Vec2) (w h t0 : ℚ) (inputs : List StepInput)
    (hinc : nowsIncreasingB t0 inputs = true) :
    0 ≤ (stepTrace s dirs (initGame s w h t0) inputs).hLeft ∧
    (stepTrace s dirs (initGame s w h t0) inputs).hLeft ≤ s.hMax ∧
    0 ≤ (stepTrace s dirs (initGame s w h t0) inputs).hCooling :=
  stepTrace_batteryInv hMax hRegen hCd inputs (initGame s w h t0)
    ⟨hMax, le_refl _, le_refl 0⟩ hinc

/-- Witness for C1: one frame with the ability key held. -/
theorem claimC1_battery_bounds_witness :
    0 ≤ (stepTrace settings directions (initGame settings 0 0 0) inputsW1).hLeft ∧
    (stepTrace settings directions (initGame settings 0 0 0) inputsW1).hLeft ≤
      settings.hMax ∧
    0 ≤ (stepTrace settings directions (initGame settings 0 0 0) inputsW1).hCooling :=
  claimC1_battery_bounds settings (by norm_num [settings]) (by norm_num [settings])
    (by norm_num [settings]) directions 0 0 0 inputsW1
    (by norm_num [nowsIncreasingB, inputsW1])

/-- Claim C2: starting from the initial session state, along every step
sequence with `dt > 0` the overheat flag holds iff the charge is 0 and the
cooldown has not yet counted down to 0; the flag is false immediately after
construction; and the only transition that raises the flag is depletion to
exactly 0 while the ability key is held and the charge was positive, which
also loads the cooldown. -/
theorem claimC2_overheat_characterization (s : Settings) (hCd : 0 < s.hCooldown)
    (dirs : String → Option Vec2) (w h t0 : ℚ) (inputs : List StepInput)
    (_hinc : nowsIncreasingB t0 inputs = true) :
    (initGame s w h t0).hOverheat = false ∧
    ((stepTrace s dirs (initGame s w h t0) inputs).hOverheat = true ↔
      ((stepTrace s dirs (initGame s w h t0) inputs).hLeft = 0 ∧
        0 < (stepTrace s dirs (initGame s w h t0) inputs).hCooling)) ∧
    (∀ (g : Game) (c : Vec2) (radius : ℚ) (rnd : Rand) (now : ℚ),
      g.hOverheat = false → (loop s c radius dirs rnd now g).hOverheat = true →
        g.keys.contains "h" = true ∧ 0 < g.hLeft ∧
        (loop s c radius dirs rnd now g).hLeft = 0 ∧
        (loop s c radius dirs rnd now g).hCooling = s.hCooldown) := by
  have hInv : OverheatInv (stepTrace s dirs (initGame s w h t0) inputs) :=
    stepTrace_overheatInv hCd inputs _
      ⟨fun hx => absurd hx Bool.false_ne_true, fun _ => rfl⟩
  refine ⟨rfl, ⟨fun hov => hInv.1 hov, ?_⟩, ?_⟩
  · rintro ⟨_, hC⟩
    cases hx : (stepTrace s dirs (initGame s w h t0) inputs).hOverheat
    · exact absurd ((hInv.2 hx) ▸ hC) (lt_irrefl 0)
    · rfl
  · intro g c radius rnd now hov ht
    exact loop_overheat_trip g hov ht

/-- Witness for C2: the characterization evaluated after one quiet frame. -/
theorem claimC2_overheat_witness :
    (initGame settings 0 0 0).hOverheat = false ∧
    ((stepTrace settings directions (initGame settings 0 0 0) inputsW1).hOverheat = true ↔
      ((stepTrace settings directions (initGame settings 0 0 0) inputsW1).hLeft = 0 ∧
        0 < (stepTrace settings directions (initGame settings 0 0 0) inputsW1).hCooling)) := by
  have h := claimC2_overheat_characterization settings (by norm_num [settings])
    directions 0 0 0 inputsW1 (by norm_num [nowsIncreasingB, inputsW1])
  exact ⟨h.1, h.2.1⟩

/-- Counterexample to C3 as stated: on a dead state, `loop` still mutates
the stored previous-frame timestamp (`game.lastFrame = now` runs before the
`!game.playing` early return). -/
theorem claimC3_counterexample :
    gDead.playing = false ∧ gDead.lastFrame = 0 ∧
    (loop settings ⟨0, 0⟩ 200 directions rndHalf 5000 gDead).lastFrame = 5000 :=
  ⟨rfl, rfl, loop_lastFrame gDead⟩

/-- Claim C3 (amended): while alive is false, `step()` leaves every field
unchanged **except** the stored previous-frame timestamp, which is
overwritten with the call's timestamp; repeated calls with the same
timestamp are therefore idempotent. -/
theorem claimC3_dead_step (s : Settings) (c : Vec2) (radius : ℚ)
    (dirs : String → Option Vec2) (rnd : Rand) (now : ℚ) (g : Game)
    (h : g.playing = false) :
    loop s c radius dirs rnd now g = { g with lastFrame := now } :=
  loop_of_dead g h

/-- Witness for the amended C3 at a concrete dead state. -/
theorem claimC3_dead_step_witness :
    loop settings ⟨0, 0⟩ 200 directions rndHalf 5000 gDead =
      { gDead with lastFrame := 5000 } :=
  claimC3_dead_step settings ⟨0, 0⟩ 200 directions rndHalf 5000 gDead rfl

/-- Claim C5: the boundary check declares the session over exactly when the
Euclidean distance from the position to the arena center strictly exceeds
`arenaRadius - blobSize/2` (root-free: the square comparison, plus the
degenerate always-out case of a negative threshold); concretely with
radius 200, blob size 40 and center `{0,0}`, distance exactly 180 leaves
`playing = true` and distance 180.01 flips it to `false`. -/
theorem claimC5_boundary (s : Settings) (c : Vec2) (radius dt : ℚ) (g : Game)
    (hp : g.playing = true) :
    ((boundaryPhase s c radius dt g).playing = false ↔
      (radius - s.blobSize / 2 < 0 ∨
        (radius - s.blobSize / 2) ^ 2 < (g.x - c.x) ^ 2 + (g.y - c.y) ^ 2)) ∧
    (loop settings ⟨0, 0⟩ 200 directions rndHalf 1000 gBoundaryIn).playing = true ∧
    (loop settings ⟨0, 0⟩ 200 directions rndHalf 1000 gBoundaryOut).playing = false := by
  refine ⟨?_, ?_, ?_⟩
  · simp only [boundaryPhase, hypotGT]
    split_ifs with hcond
    · simp only [Bool.or_eq_true, decide_eq_true_eq] at hcond
      exact ⟨fun _ => hcond, fun _ => rfl⟩
    · simp only [Bool.or_eq_true, decide_eq_true_eq, not_or] at hcond
      constructor
      · intro hx
        exact absurd (hp.symm.trans hx).symm Bool.false_ne_true
      · intro hor
        rcases hor with hor | hor
        · exact absurd hor hcond.1
        · exact absurd hor hcond.2
  · norm_num [loop, settings, gBoundaryIn, rndHalf, usingH, canUseH, driftPhase,
      wigglePhase, pushPhase, getKeyDirection, hPhase, movePhase, boundaryPhase,
      hypotGT, pickNewDrift]
  · norm_num [loop, settings, gBoundaryIn, gBoundaryOut, rndHalf, usingH, canUseH,
      driftPhase, wigglePhase, pushPhase, getKeyDirection, hPhase, movePhase,
      boundaryPhase, hypotGT, pickNewDrift]

/-- Witness for C5: the general boundary-check equivalence instantiated at
the out-of-bounds concrete state. -/
theorem claimC5_boundary_witness :
    (boundaryPhase settings ⟨0, 0⟩ 200 1 gBoundaryOut).playing = false ↔
      (200 - settings.blobSize / 2 < 0 ∨
        (200 - settings.blobSize / 2) ^ 2 <
          (gBoundaryOut.x - (⟨0, 0⟩ : Vec2).x) ^ 2 +
            (gBoundaryOut.y - (⟨0, 0⟩ : Vec2).y) ^ 2) :=
  (claimC5_boundary settings ⟨0, 0⟩ 200 1 gBoundaryOut rfl).1

/-- On a live frame the end-of-step drift timer is the decremented timer
when that stayed positive, and the resampled value otherwise. -/
lemma loop_driftTimer {s : Settings} {c : Vec2} {radius now : ℚ}
    {dirs : String → Option Vec2} {rnd : Rand} (g0 : Game)
    (hp : g0.playing = true) :
    (loop s c radius dirs rnd now g0).driftTimer =
      if g0.driftTimer - (now - g0.lastFrame) / 1000 ≤ 0 then
        s.driftChangeMin + rnd.d3 * (s.driftChangeMax - s.driftChangeMin)
      else g0.driftTimer - (now - g0.lastFrame) / 1000 := by
  rw [loop_of_playing g0 hp]
  simp only [boundaryPhase_driftTimer, movePhase_driftTimer, hPhase_driftTimer,
    pushPhase_driftTimer, wigglePhase_driftTimer]
  simp only [driftPhase]
  split_ifs with h1
  · rfl
  · rfl

/-- Claim C9: on every live frame (any sign of dt, in particular dt > 0),
if the decremented drift timer reaches a value ≤ 0 it is resampled within
the same step into `[driftChangeMin, driftChangeMax]` with
`driftChangeMin > 0`, so the timer is strictly positive at the end of every
step. -/
theorem claimC9_drift_timer (s : Settings) (c : Vec2) (radius : ℚ)
    (dirs : String → Option Vec2) (rnd : Rand) (now : ℚ) (g : Game)
    (hp : g.playing = true) (_hdt : g.lastFrame < now)
    (hr0 : 0 ≤ rnd.d3) (hr1 : rnd.d3 < 1)
    (hm : 0 < s.driftChangeMin) (hmm2 : s.driftChangeMin ≤ s.driftChangeMax) :
    0 < (loop s c radius dirs rnd now g).driftTimer ∧
    (g.driftTimer - (now - g.lastFrame) / 1000 ≤ 0 →
      s.driftChangeMin ≤ (loop s c radius dirs rnd now g).driftTimer ∧
      (loop s c radius dirs rnd now g).driftTimer ≤ s.driftChangeMax) := by
  have hspan : 0 ≤ s.driftChangeMax - s.driftChangeMin := sub_nonneg.mpr hmm2
  have hlo : 0 ≤ rnd.d3 * (s.driftChangeMax - s.driftChangeMin) :=
    mul_nonneg hr0 hspan
  have hhi : rnd.d3 * (s.driftChangeMax - s.driftChangeMin) ≤
      1 * (s.driftChangeMax - s.driftChangeMin) :=
    mul_le_mul_of_nonneg_right hr1.le hspan
  rw [loop_driftTimer g hp]
  constructor
  · split_ifs with hcond
    · linarith
    · linarith [not_le.mp hcond]
  · intro hcond
    rw [if_pos hcond]
    exact ⟨by linarith, by linarith⟩

/-- Witness for C9 at a concrete live frame. -/
theorem claimC9_drift_timer_witness :
    0 < (loop settings ⟨0, 0⟩ 200 directions rndHalf 1000 gBoundaryIn).driftTimer :=
  (claimC9_drift_timer settings ⟨0, 0⟩ 200 directions rndHalf 1000 gBoundaryIn rfl
    (by norm_num [gBoundaryIn]) (by norm_num [rndHalf]) (by norm_num [rndHalf])
    (by norm_num [settings]) (by norm_num [settings])).1

/-- With the ability inactive, an overheated state whose cooldown is
exhausted by this frame clears the flag and leaves the charge untouched. -/
lemma hPhase_cooldown_clear {s : Settings} {c : Vec2} {dt : ℚ} {g : Game}
    (hov : g.hOverheat = true) (hc : g.hCooling ≤ dt) :
    hPhase s c false dt g = { g with hCooling := 0, hOverheat := false } := by
  have hmax : (0 : ℚ) ⊔ (g.hCooling - dt) = 0 :=
    max_eq_left (sub_nonpos.mpr hc)
  simp only [hPhase]
  rw [if_neg (by simp), if_pos hov, if_pos hmax]
  ext <;> simp [hmax]

/-- A non-overheated zero-charge state regenerates by `hRegen * dt` capped
at `hMax` on its next frame. -/
lemma loop_regen_from_zero {s : Settings} {c : Vec2} {radius now : ℚ}
    {dirs : String → Option Vec2} {rnd : Rand} (g : Game)
    (hp : g.playing = true) (hov : g.hOverheat = false) (hL : g.hLeft = 0) :
    (loop s c radius dirs rnd now g).hLeft =
      min s.hMax (s.hRegen * ((now - g.lastFrame) / 1000)) := by
  have hu : usingH g = false := by
    simp [usingH, canUseH, hL]
  obtain ⟨e1, _, _⟩ := @loop_hState s c radius now dirs rnd g hp
  rw [e1, hu]
  simp only [hPhase]
  rw [if_neg (by simp), if_neg (by simp [hov])]
  simp [hL]

/-- Claim C10: on the frame where the cooldown reaches 0 the overheat flag
is cleared but the charge is **not** regenerated in the same step (it stays
exactly 0); regeneration (by `hRegen * dt`, capped at `hMax`) begins only on
the following frame. -/
theorem claimC10_no_regen_on_clear (s : Settings) (c : Vec2) (radius : ℚ)
    (dirs : String → Option Vec2) (rnd : Rand) (now : ℚ) (g : Game)
    (hp : g.playing = true) (hov : g.hOverheat = true) (hL : g.hLeft = 0)
    (hcool : g.hCooling ≤ (now - g.lastFrame) / 1000) :
    (loop s c radius dirs rnd now g).hOverheat = false ∧
    (loop s c radius dirs rnd now g).hLeft = 0 ∧
    (∀ (g2 : Game) (c2 : Vec2) (r2 : ℚ) (rnd2 : Rand) (now2 : ℚ),
      g2.playing = true → g2.hOverheat = false → g2.hLeft = 0 →
      (loop s c2 r2 dirs rnd2 now2 g2).hLeft =
        min s.hMax (s.hRegen * ((now2 - g2.lastFrame) / 1000))) := by
  have hu : usingH g = false := by
    simp [usingH, canUseH, hov]
  obtain ⟨e1, e2, e3⟩ := @loop_hState s c radius now dirs rnd g hp
  have hcl := hPhase_cooldown_clear (s := s) (c := c) hov hcool
  refine ⟨?_, ?_, ?_⟩
  · rw [e3, hu, hcl]
  · rw [e1, hu, hcl]
    exact hL
  · intro g2 c2 r2 rnd2 now2 hp2 hov2 hL2
    exact loop_regen_from_zero g2 hp2 hov2 hL2

/-- Witness for C10 at concrete states with dt = 1 s. -/
theorem claimC10_no_regen_on_clear_witness :
    (loop settings ⟨0, 0⟩ 200 directions rndHalf 1000 gClearing).hOverheat = false ∧
    (loop settings ⟨0, 0⟩ 200 directions rndHalf 1000 gClearing).hLeft = 0 ∧
    (loop settings ⟨0, 0⟩ 200 directions rndHalf 1000 gRegenStart).hLeft =
      min settings.hMax (settings.hRegen * ((1000 - gRegenStart.lastFrame) / 1000)) := by
  have h := claimC10_no_regen_on_clear settings ⟨0, 0⟩ 200 directions rndHalf 1000
    gClearing rfl rfl rfl (by norm_num [gClearing])
  exact ⟨h.1, h.2.1, h.2.2 gRegenStart ⟨0, 0⟩ 200 rndHalf 1000 rfl rfl rfl⟩

/-! ### dt = 0 behavior (claim C4) -/

section DtZero

variable {s : Settings} {c : Vec2} {dirs : String → Option Vec2}
variable {rnd : Rand} {uH : Bool} {g : Game}

lemma driftPhase_dtzero (h : 0 < g.driftTimer) : driftPhase s rnd 0 g = g := by
  simp only [driftPhase]
  split_ifs with hsp
  · exact absurd (by simpa using hsp) (not_le.mpr h)
  · ext <;> simp

lemma wigglePhase_dtzero : wigglePhase s rnd uH 0 g = g := by
  unfold wigglePhase
  split
  · ext <;> simp
  · rfl

lemma pushPhase_dtzero : pushPhase s dirs 0 g = g := by
  ext <;> simp [pushPhase]

lemma hPhase_dtzero (hL0 : 0 ≤ g.hLeft) (hLM : g.hLeft ≤ s.hMax)
    (hCpos : g.hOverheat = true → 0 < g.hCooling)
    (huH : uH = true → 0 < g.hLeft) :
    hPhase s c uH 0 g = g := by
  simp only [hPhase]
  split_ifs with huH1 hz hov hc
  · have hmax : (0 : ℚ) ⊔ (g.hLeft - 0) = g.hLeft := by
      rw [sub_zero]
      exact max_eq_right hL0
    have hzero : g.hLeft = 0 := by rw [← hmax]; exact hz
    exact absurd hzero (huH huH1).ne'
  · ext <;> simp [sub_zero, max_eq_right hL0]
  · have h1 := hCpos hov
    have hmax : (0 : ℚ) ⊔ (g.hCooling - 0) = g.hCooling := by
      rw [sub_zero]
      exact max_eq_right h1.le
    have hzero : g.hCooling = 0 := by rw [← hmax]; exact hc
    exact absurd hzero h1.ne'
  · ext <;> simp [sub_zero, max_eq_right (hCpos hov).le]
  · ext <;> simp [min_eq_right hLM]

end DtZero

/-- Counterexample to C4 as stated: the code has no `dt ≤ 0` guard, so a
call with `dt = 0` (timestamp equal to the stored one) is **not** a no-op:
friction still rescales the velocity from 100 to 97. -/
theorem claimC4_counterexample :
    gC4.playing = true ∧ (0 - gC4.lastFrame) / 1000 = 0 ∧ gC4.sx = 100 ∧
    (loop settings ⟨0, 0⟩ 200 directions rndHalf 0 gC4).sx = 97 := by
  refine ⟨rfl, by norm_num [gC4], rfl, ?_⟩
  norm_num [loop, gC4, settings, rndHalf, usingH, canUseH, driftPhase,
    wigglePhase, pushPhase, getKeyDirection, hPhase, movePhase, boundaryPhase,
    hypotGT, pickNewDrift]

/-- Claim C4 (amended): a `dt = 0` step on an alive state raises no error
(the update is total) but is not a no-op: it changes exactly the velocity,
scaling both components by the friction coefficient.  (The hypotheses rule
out the independent state changes a degenerate dt = 0 frame can still make:
a pending drift resample, an out-of-range battery field, an out-of-bounds
position.)  With `dt < 0` even more fields change. -/
theorem claimC4_dt_nonpositive (s : Settings) (c : Vec2) (radius : ℚ)
    (dirs : String → Option Vec2) (rnd : Rand) (now : ℚ) (g : Game)
    (hp : g.playing = true) (hnow : now = g.lastFrame)
    (htimer : 0 < g.driftTimer)
    (hL0 : 0 ≤ g.hLeft) (hLM : g.hLeft ≤ s.hMax)
    (hCpos : g.hOverheat = true → 0 < g.hCooling)
    (hin : hypotGT (g.x - c.x) (g.y - c.y) (radius - s.blobSize / 2) = false) :
    loop s c radius dirs rnd now g =
      { g with sx := g.sx * s.slowDown, sy := g.sy * s.slowDown } := by
  subst hnow
  rw [loop_of_playing g hp]
  rw [show (g.lastFrame - g.lastFrame) / 1000 = (0 : ℚ) by simp]
  rw [show ({ g with lastFrame := g.lastFrame } : Game) = g from rfl]
  rw [driftPhase_dtzero htimer, wigglePhase_dtzero, pushPhase_dtzero,
    hPhase_dtzero hL0 hLM hCpos (fun hx => (usingH_eq_true_iff.mp hx).2.2)]
  have hmv : movePhase s 0 g =
      { g with sx := g.sx * s.slowDown, sy := g.sy * s.slowDown } := by
    ext <;> simp
  rw [hmv]
  simp only [boundaryPhase]
  split_ifs with hb
  · have hb2 : hypotGT (g.x - c.x) (g.y - c.y) (radius - s.blobSize / 2) = true := by
      simpa using hb
    rw [hin] at hb2
    exact absurd hb2 Bool.false_ne_true
  · ext <;> simp

/-- Witness for the amended C4 at the counterexample state. -/
theorem claimC4_dt_nonpositive_witness :
    loop settings ⟨0, 0⟩ 200 directions rndHalf 0 gC4 =
      { gC4 with sx := gC4.sx * settings.slowDown,
                 sy := gC4.sy * settings.slowDown } :=
  claimC4_dt_nonpositive settings ⟨0, 0⟩ 200 directions rndHalf 0 gC4 rfl rfl
    (by norm_num [gC4]) (by norm_num [gC4]) (by norm_num [gC4, settings])
    (fun hx => absurd hx (by simp [gC4]))
    (by norm_num [hypotGT, gC4, settings])

/-! ### The 5-step center scenario (claim C6) -/

/-- Counterexample to C6 as stated: with only the drift magnitude configured
to 0, the wiggle (`randomShake = 90`) still accelerates the blob; with
random samples equal to 1 the session is already dead after two frames, far
from the center, with elapsed time 1 ≠ 5. -/
theorem claimC6_counterexample :
    (stepTrace settingsD0 directions (initGame settingsD0 0 0 0) inputsC6).playing
        = false ∧
    (stepTrace settingsD0 directions (initGame settingsD0 0 0 0) inputsC6).x ≠ 0 ∧
    (stepTrace settingsD0 directions (initGame settingsD0 0 0 0) inputsC6).time ≠ 5 := by
  norm_num [stepTrace, traceStep, inputsC6, initGame, loop, settingsD0, settings,
    rndOne, usingH, canUseH, driftPhase, wigglePhase, pushPhase, getKeyDirection,
    hPhase, movePhase, boundaryPhase, hypotGT, pickNewDrift]

/-- One 1-second quiet frame keeps the state calm and advances the clock. -/
lemma calm_step (w h radius now : ℚ) (hrad : 20 ≤ radius) (g : Game) (rnd : Rand)
    (hca : Calm w h g) (hnow : now = g.lastFrame + 1000) :
    Calm w h (traceStep settingsCalm directions g
      ⟨[], ⟨w / 2, h / 2⟩, radius, rnd, now⟩) ∧
    (traceStep settingsCalm directions g
      ⟨[], ⟨w / 2, h / 2⟩, radius, rnd, now⟩).time = g.time + 1 ∧
    (traceStep settingsCalm directions g
      ⟨[], ⟨w / 2, h / 2⟩, radius, rnd, now⟩).lastFrame = now := by
  obtain ⟨hp, hX, hY, hSX, hSY, hDX, hDY, hK, hHL, hHC, hHO⟩ := hca
  subst hnow
  have hKg : ({ g with keys := ([] : List String) } : Game) = g := by rw [← hK]
  simp only [traceStep]
  rw [hKg]
  rw [loop_of_playing g hp]
  rw [show (g.lastFrame + 1000 - g.lastFrame) / 1000 = (1 : ℚ) by
    rw [add_sub_cancel_left]; norm_num]
  have huse : usingH g = false := by simp [usingH, hK]
  rw [huse]
  obtain ⟨T, hdriftEq⟩ : ∃ T : ℚ,
      driftPhase settingsCalm rnd 1 { g with lastFrame := g.lastFrame + 1000 } =
        { g with lastFrame := g.lastFrame + 1000, driftTimer := T } := by
    simp only [driftPhase]
    split_ifs with hsp
    · exact ⟨settingsCalm.driftChangeMin +
        rnd.d3 * (settingsCalm.driftChangeMax - settingsCalm.driftChangeMin),
        by ext <;> simp [pickNewDrift, settingsCalm, hDX, hDY]⟩
    · exact ⟨g.driftTimer - 1, by ext <;> simp [hDX, hDY]⟩
  rw [hdriftEq]
  rw [show wigglePhase settingsCalm rnd false 1
      { g with lastFrame := g.lastFrame + 1000, driftTimer := T } =
      { g with lastFrame := g.lastFrame + 1000, driftTimer := T } by
    unfold wigglePhase
    split
    · ext <;> simp [settingsCalm]
    · rfl]
  rw [show pushPhase settingsCalm directions 1
      { g with lastFrame := g.lastFrame + 1000, driftTimer := T } =
      { g with lastFrame := g.lastFrame + 1000, driftTimer := T } by
    ext <;> simp [pushPhase, hK, getKeyDirection]]
  rw [show hPhase settingsCalm ⟨w / 2, h / 2⟩ false 1
      { g with lastFrame := g.lastFrame + 1000, driftTimer := T } =
      { g with lastFrame := g.lastFrame + 1000, driftTimer := T } by
    simp only [hPhase]
    rw [if_neg (by simp), if_neg (by simp [hHO])]
    ext <;> norm_num [hHL, settingsCalm, settings]]
  rw [show movePhase settingsCalm 1
      { g with lastFrame := g.lastFrame + 1000, driftTimer := T } =
      { g with lastFrame := g.lastFrame + 1000, driftTimer := T } by
    ext <;> simp [hSX, hSY]]
  simp only [boundaryPhase]
  split_ifs with hb
  · exfalso
    simp only [hypotGT, Bool.or_eq_true, decide_eq_true_eq, settingsCalm,
      settings, hX, hY] at hb
    rcases hb with hb | hb
    · linarith
    · nlinarith [hb, sq_nonneg (radius - 40 / 2)]
  · exact ⟨⟨hp, hX, hY, hSX, hSY, hDX, hDY, hK, hHL, hHC, hHO⟩, rfl, rfl⟩

/-- Claim C6 (amended): with the drift magnitude **and the wiggle
magnitude** configured to 0, starting from the initial state at the arena
center with zero velocity and no keys held, after 5 steps of 1 s each the
position is exactly the arena center, elapsed time is 5.0, and the session
is still alive — for every choice of the per-frame random samples. -/
theorem claimC6_center_scenario (w h radius t0 : ℚ) (hrad : 20 ≤ radius)
    (r1 r2 r3 r4 r5 : Rand) :
    (stepTrace settingsCalm directions (initGame settingsCalm w h t0)
        (calmInputs w h radius t0 r1 r2 r3 r4 r5)).x = w / 2 ∧
    (stepTrace settingsCalm directions (initGame settingsCalm w h t0)
        (calmInputs w h radius t0 r1 r2 r3 r4 r5)).y = h / 2 ∧
    (stepTrace settingsCalm directions (initGame settingsCalm w h t0)
        (calmInputs w h radius t0 r1 r2 r3 r4 r5)).time = 5 ∧
    (stepTrace settingsCalm directions (initGame settingsCalm w h t0)
        (calmInputs w h radius t0 r1 r2 r3 r4 r5)).playing = true := by
  have h0 : Calm w h (initGame settingsCalm w h t0) := by
    refine ⟨rfl, rfl, rfl, rfl, rfl, rfl, rfl, rfl, ?_, rfl, rfl⟩
    norm_num [initGame, settingsCalm, settings]
  simp only [calmInputs, stepTrace]
  obtain ⟨c1, t1, l1⟩ := calm_step w h radius (t0 + 1000) hrad _ r1 h0 rfl
  obtain ⟨c2, t2, l2⟩ := calm_step w h radius (t0 + 2000) hrad _ r2 c1
    (by rw [l1]; ring)
  obtain ⟨c3, t3, l3⟩ := calm_step w h radius (t0 + 3000) hrad _ r3 c2
    (by rw [l2]; ring)
  obtain ⟨c4, t4, l4⟩ := calm_step w h radius (t0 + 4000) hrad _ r4 c3
    (by rw [l3]; ring)
  obtain ⟨c5, t5, l5⟩ := calm_step w h radius (t0 + 5000) hrad _ r5 c4
    (by rw [l4]; ring)
  refine ⟨c5.2.1, c5.2.2.1, ?_, c5.1⟩
  rw [t5, t4, t3, t2, t1]
  norm_num [initGame]

/-- Witness for the amended C6 at concrete window 0×0, radius 200, all
samples 1/2. -/
theorem claimC6_center_scenario_witness :
    (stepTrace settingsCalm directions (initGame settingsCalm 0 0 0)
        (calmInputs 0 0 200 0 rndHalf rndHalf rndHalf rndHalf rndHalf)).x = 0 ∧
    (stepTrace settingsCalm directions (initGame settingsCalm 0 0 0)
        (calmInputs 0 0 200 0 rndHalf rndHalf rndHalf rndHalf rndHalf)).y = 0 ∧
    (stepTrace settingsCalm directions (initGame settingsCalm 0 0 0)
        (calmInputs 0 0 200 0 rndHalf rndHalf rndHalf rndHalf rndHalf)).time = 5 ∧
    (stepTrace settingsCalm directions (initGame settingsCalm 0 0 0)
        (calmInputs 0 0 200 0 rndHalf rndHalf rndHalf rndHalf rndHalf)).playing
        = true := by
  simpa using claimC6_center_scenario 0 0 200 0 (by norm_num)
    rndHalf rndHalf rndHalf rndHalf rndHalf

end BlobGame
